import Mathlib

/-!
# Verification of the `dap_mrs` matching engine (`src/main.py`, function `rematcher`)

This file gives a shallow embedding of the configurable deferred-acceptance
engine `rematcher` (src/main.py, lines 859-1405) and proves properties of it.
Python floats are modelled by `ℚ`; the two pandas frames `A` and `B` are
modelled as functions from the dense integer id (= row position) to a record
of the row's fields, together with the common population size `n`.

Correspondence to the source:
* agent records: the columns created at lines 1052-1078 (`first_best` is
  created but never read anywhere in the file, so it is omitted; `id` is the
  function argument itself);
* `uA` is the applicant-side match-utility formula of lines 1146-1149 and
  1180-1183 (no bias term);
* `uB` is the reviewer-side valuation of an applicant, lines 1151-1155,
  1161-1165, 1167-1171 and 1185 (includes the `bias_char * bias_mrs` term);
* `network`/`sort_values_desc`/`qth_best_id`: lines 1126-1140.  Note that the
  source builds the utility column as the pandas expression
  `B.char_1 + B.char_2 * A.mrs12 + ...`, which aligns reviewer row `j` with
  applicant row `j`'s MRS columns (not with the proposing applicant `i`'s).
  `pd.sort_values('utility', ascending=False)` is implemented by pandas as:
  reverse the rows, argsort ascending with the numpy `quicksort` kernel
  (introsort), then reverse the resulting index order
  (`pandas.core.sorting.nargsort`).  The kernel is modelled by
  `List.insertionSort` — exact on numpy's small-array insertion-sort path
  and an admissible ascending permutation beyond it; tie-order properties
  are only ever asserted within the insertion-sort regime;
* `processOne`: the body of the `for i in A['id']` loop, lines 1122-1193,
  including the fact that the second reviewer-matched test at line 1157 is a
  plain `if` re-reading the state possibly updated at lines 1143-1155;
* `iterStep`: one iteration of the `while` loop, lines 1111-1222 (console
  printing and the `log` frame, which is write-only output, are omitted);
* `loopFuel`/`matchingLoop`: the `while all_matched == False` loop.  The
  loop is embedded with structural fuel `1002`; the cap at lines 1221-1222
  forces the `all_matched` flag after at most 1001 executions of the body
  starting from `iterat = 0`, so the fuel is never the binding constraint
  (proved below as part of the termination theorem);
* the table pipeline (`Table`, `prepInput`, `buildPopulations`,
  `rematcher`): lines 991-1078 and the results section, lines 1249-1287.
  Missing-column lookups model the pandas `KeyError`.  Column-name
  parameters are fixed to their default values (they are a pure renaming);
  note line 991-992 prefixes the two bias column names with the default
  `spec_name` `'default'`.  The z-score columns (lines 1270-1287) are
  real-valued functions (they divide by a float standard deviation) of the
  columns modelled here and are omitted.
-/

/-- Applicant record: one row of the frame `A` built at lines 1052-1064.
`matchId` models the `match` column (`None` = unmatched). -/
structure AgentA where
  char_1 : ℚ
  char_2 : ℚ
  char_3 : ℚ
  char_4 : ℚ
  bias_char : ℚ
  mrs12 : ℚ
  mrs13 : ℚ
  mrs14 : ℚ
  matchId : Option Nat
  match_utility : ℚ
deriving DecidableEq

/-- Reviewer record: one row of the frame `B` built at lines 1066-1078. -/
structure AgentB where
  char_1 : ℚ
  char_2 : ℚ
  char_3 : ℚ
  char_4 : ℚ
  mrs12 : ℚ
  mrs13 : ℚ
  mrs14 : ℚ
  bias_mrs : ℚ
  matchId : Option Nat
  match_utility : ℚ
deriving DecidableEq

/-- Utility an applicant `a` derives from reviewer `b`: the applicant-side
match-utility formula of lines 1146-1149 / 1180-1183 (no bias term). -/
def uA (a : AgentA) (b : AgentB) : ℚ :=
  b.char_1 + b.char_2 * a.mrs12 + b.char_3 * a.mrs13 + b.char_4 * a.mrs14

/-- Value reviewer `b` assigns to applicant `a`, bias included: lines
1151-1155 and 1161-1171 / 1185. -/
def uB (a : AgentA) (b : AgentB) : ℚ :=
  a.char_1 + a.char_2 * b.mrs12 + a.char_3 * b.mrs13 + a.char_4 * b.mrs14
    + a.bias_char * b.bias_mrs

/-- The reviewer-side valuation without the bias term (the formula of the
`B_obs_u` column, line 1259, and of the bias-corrected column). -/
def uB_nobias (a : AgentA) (b : AgentB) : ℚ :=
  a.char_1 + a.char_2 * b.mrs12 + a.char_3 * b.mrs13 + a.char_4 * b.mrs14

/-- The two populations, indexed by dense id `0..n-1` (the frame index). -/
structure MatchState where
  A : Nat → AgentA
  B : Nat → AgentB

/-- One row of the `network` frame built at lines 1126-1133 (its `char_*`
columns are carried by the source but never read, so they are omitted). -/
structure NetEntry where
  id : Nat
  utility : ℚ
deriving DecidableEq

/-- Comparison on the `utility` column used by the sort at line 1136. -/
def leU (x y : NetEntry) : Prop := x.utility ≤ y.utility

instance : DecidableRel leU :=
  fun x y => inferInstanceAs (Decidable (x.utility ≤ y.utility))

instance : IsTotal NetEntry leU := ⟨fun a b => le_total a.utility b.utility⟩

instance : IsTrans NetEntry leU := ⟨fun _ _ _ h1 h2 => le_trans h1 h2⟩

/-- The `network` frame of lines 1126-1133: one row per reviewer `j`, with
the pandas column expression `B.char_1 + B.char_2*A.mrs12 + B.char_3*A.mrs13
+ B.char_4*A.mrs14`, which pairs reviewer row `j` with applicant row `j`'s
MRS values (row alignment of the two frames). -/
def network (n : Nat) (st : MatchState) : List NetEntry :=
  (List.range n).map fun j =>
    ⟨j, (st.B j).char_1 + (st.B j).char_2 * (st.A j).mrs12
        + (st.B j).char_3 * (st.A j).mrs13 + (st.B j).char_4 * (st.A j).mrs14⟩

/-- Model of `pd.DataFrame.sort_values('utility', ascending=False)` (line
1136) with pandas' default `kind='quicksort'`: pandas reverses the rows,
argsorts ascending with the numpy kernel and reverses the result
(`nargsort`).  The numpy `quicksort` kernel is introsort, which runs pure
insertion sort below its small-array cutoff (`SMALL_QUICKSORT = 15` in
npysort) and is stable there; `List.insertionSort` is that path exactly.
Above the cutoff introsort still returns an ascending permutation but
guarantees no order among equal keys, so the model's tie order is only one
admissible outcome there; accordingly, no theorem below asserts a tie order
of this sort beyond the insertion-sort regime — stability claims are
explicitly restricted to small networks. -/
def sort_values_desc (l : List NetEntry) : List NetEntry :=
  (List.insertionSort leU l.reverse).reverse

/-- The id in row `q-1` of the sorted network, line 1140 (`iloc[q-1]['id']`). -/
def qth_best_id (n q : Nat) (st : MatchState) : Nat :=
  ((sort_values_desc (network n st)).getD (q - 1) ⟨0, 0⟩).id

/-- Match with an available reviewer, lines 1145-1155: set both sides'
`match` and recompute both sides' `match_utility`; the reviewer side
includes the bias term. -/
def formMatch (st : MatchState) (i qth : Nat) : MatchState :=
  { A := Function.update st.A i
      { st.A i with matchId := some qth, match_utility := uA (st.A i) (st.B qth) },
    B := Function.update st.B qth
      { st.B qth with matchId := some i, match_utility := uB (st.A i) (st.B qth) } }

/-- Displace the incumbent `current`, lines 1173-1185: clear the incumbent's
match and utility, match `i`, and store the precomputed `i_utility` (which
includes the bias term) as the reviewer's new `match_utility`. -/
def breakupMatch (st : MatchState) (i qth current : Nat) (iu : ℚ) : MatchState :=
  let A1 := Function.update st.A current
    { st.A current with matchId := none, match_utility := 0 }
  let A2 := Function.update A1 i
    { A1 i with matchId := some qth, match_utility := uA (A1 i) (st.B qth) }
  { A := A2,
    B := Function.update st.B qth
      { st.B qth with matchId := some i, match_utility := iu } }

/-- Body of the `for i in A['id']` loop for one applicant `i`, lines
1122-1193.  Both reviewer-state tests (lines 1143 and 1157) are independent
`if`s; the second re-reads the state after the first may have formed a
match, exactly as the source does. -/
def processOne (n q : Nat) (st : MatchState) (i : Nat) : MatchState :=
  if (st.A i).matchId = none then
    let qth := qth_best_id n q st
    let st1 := if (st.B qth).matchId = none then formMatch st i qth else st
    match (st1.B qth).matchId with
    | none => st1
    | some current =>
      let cu := uB (st1.A current) (st1.B qth)
      let iu := uB (st1.A i) (st1.B qth)
      if cu < iu then breakupMatch st1 i qth current iu else st1
  else st

/-- One full pass over all applicants at the current rank `q`. -/
def applicantPass (n q : Nat) (st : MatchState) : MatchState :=
  (List.range n).foldl (processOne n q) st

/-- State of the `while` loop: populations, the global rank `q`, the
iteration counter and the `all_matched` flag. -/
structure LoopState where
  ms : MatchState
  q : Nat
  iterat : Nat
  all_matched : Bool

/-- One iteration of the `while` loop, lines 1111-1222: run the applicant
pass, advance the global rank (lines 1194-1199), recompute the flag from the
reviewer side (lines 1215-1219) and force it once the counter exceeds 1000
(lines 1221-1222). -/
def iterStep (n : Nat) (st : LoopState) : LoopState :=
  let iterat' := st.iterat + 1
  let ms' := applicantPass n st.q st.ms
  let q' := if st.q < n then st.q + 1 else if st.q = n then 1 else st.q
  let am := (List.range n).all fun j => ((ms'.B j).matchId).isSome
  { ms := ms', q := q', iterat := iterat',
    all_matched := if 1000 < iterat' then true else am }

/-- The `while all_matched == False` loop, embedded with structural fuel. -/
def loopFuel (n : Nat) : Nat → LoopState → LoopState
  | 0, st => st
  | k + 1, st => if st.all_matched = true then st else loopFuel n k (iterStep n st)

/-- The matching loop.  Fuel 1002 is sufficient for every start state: the
cap at lines 1221-1222 forces the flag after at most 1001 iterations from
`iterat = 0` (proved below), so the fuel never cuts the loop short. -/
def matchingLoop (n : Nat) (st : LoopState) : LoopState :=
  loopFuel n 1002 st

/-- Initial loop state: `q = 1`, `iterat = 0`, `all_matched = False`
(lines 1014-1015, 1103-1107). -/
def initLoop (A0 : Nat → AgentA) (B0 : Nat → AgentB) : LoopState :=
  { ms := { A := A0, B := B0 }, q := 1, iterat := 0, all_matched := false }

/-! ## Result compiler (lines 1249-1287) -/

/-- The `_A_obs_u` column, line 1258: the pandas expression
`B.char_1 + B.char_2*A.mrs12 + B.char_3*A.mrs13 + B.char_4*A.mrs14`,
row-aligned: row `i` combines reviewer `i`'s characteristics with applicant
`i`'s MRS values. -/
def A_obs_u_col (st : MatchState) (i : Nat) : ℚ :=
  (st.B i).char_1 + (st.B i).char_2 * (st.A i).mrs12
    + (st.B i).char_3 * (st.A i).mrs13 + (st.B i).char_4 * (st.A i).mrs14

/-- The `_B_obs_u` column, line 1259 (row-aligned, no bias term). -/
def B_obs_u_col (st : MatchState) (i : Nat) : ℚ :=
  (st.A i).char_1 + (st.A i).char_2 * (st.B i).mrs12
    + (st.A i).char_3 * (st.B i).mrs13 + (st.A i).char_4 * (st.B i).mrs14

/-- The `_A_dap_u` column, line 1260. -/
def A_dap_u_col (st : MatchState) (i : Nat) : ℚ := (st.A i).match_utility

/-- The `_B_dap_u` column, line 1261. -/
def B_dap_u_col (st : MatchState) (i : Nat) : ℚ := (st.B i).match_utility

/-- The `_diff_A` column, line 1278. -/
def diff_A_col (st : MatchState) (i : Nat) : ℚ := A_obs_u_col st i - A_dap_u_col st i

/-- The `_diff_B` column, line 1279. -/
def diff_B_col (st : MatchState) (i : Nat) : ℚ := B_obs_u_col st i - B_dap_u_col st i

/-- Ascending order on the `match` column values used by
`B.sort_values('match', ascending=True)` at line 1265; `none` models `NaN`,
which pandas places last (`na_position='last'`). -/
def optLE (x y : Option Nat) : Prop :=
  match x, y with
  | none, none => True
  | none, some _ => False
  | some _, none => True
  | some a, some b => a ≤ b

instance (x y : Option Nat) : Decidable (optLE x y) :=
  match x, y with
  | none, none => isTrue trivial
  | none, some _ => isFalse fun h => h
  | some _, none => isTrue trivial
  | some a, some b => inferInstanceAs (Decidable (a ≤ b))

/-- Row order on reviewers for the sort at line 1265. -/
def leM (x y : AgentB) : Prop := optLE x.matchId y.matchId

instance : DecidableRel leM :=
  fun x y => inferInstanceAs (Decidable (optLE x.matchId y.matchId))

theorem optLE_total (x y : Option Nat) : optLE x y ∨ optLE y x := by
  unfold optLE
  rcases x with _ | a <;> rcases y with _ | b <;> simp [le_total]

theorem optLE_trans (x y z : Option Nat) (h1 : optLE x y) (h2 : optLE y z) :
    optLE x z := by
  unfold optLE at h1 h2 ⊢
  rcases x with _ | a <;> rcases y with _ | b <;> rcases z with _ | c <;>
    simp_all <;> omega

theorem optLE_antisymm (x y : Option Nat) (h1 : optLE x y) (h2 : optLE y x) :
    x = y := by
  unfold optLE at h1 h2
  rcases x with _ | a <;> rcases y with _ | b <;> simp_all <;> omega

instance : IsTotal (Option Nat) optLE := ⟨optLE_total⟩

instance : IsTrans (Option Nat) optLE := ⟨optLE_trans⟩

instance : IsAntisymm (Option Nat) optLE := ⟨optLE_antisymm⟩

instance : IsTotal AgentB leM := ⟨fun a b => optLE_total a.matchId b.matchId⟩

instance : IsTrans AgentB leM :=
  ⟨fun a b c h1 h2 => optLE_trans a.matchId b.matchId c.matchId h1 h2⟩

/-- The frame `B_dap_sorted` of line 1265: reviewer rows sorted ascending by
the id of the applicant they hold.  The keys are distinct whenever the final
matching is complete, so any correct sort model yields the pandas result. -/
def B_dap_sorted (n : Nat) (st : MatchState) : List AgentB :=
  List.insertionSort leM ((List.range n).map st.B)

/-- Default reviewer record used only as the out-of-range fallback of list
indexing. -/
def dummyB : AgentB :=
  { char_1 := 0, char_2 := 0, char_3 := 0, char_4 := 0, mrs12 := 0, mrs13 := 0,
    mrs14 := 0, bias_mrs := 0, matchId := none, match_utility := 0 }

/-- The `_A_apparent_u` column, line 1266: row `i` holds the
`match_utility` (bias included) of the reviewer in row `i` of
`B_dap_sorted`. -/
def A_apparent_u_col (n : Nat) (st : MatchState) (i : Nat) : ℚ :=
  ((B_dap_sorted n st).getD i dummyB).match_utility

/-- The `_A_apparent_corrected_u` column, line 1267:
`B_dap_sorted.match_utility - A.bias_char * B_dap_sorted.bias_mrs`. -/
def A_apparent_corrected_u_col (n : Nat) (st : MatchState) (i : Nat) : ℚ :=
  A_apparent_u_col n st i
    - (st.A i).bias_char * ((B_dap_sorted n st).getD i dummyB).bias_mrs

/-! ## Input table pipeline (lines 991-1078) -/

/-- A pandas frame of numeric columns keyed by name; a missing key raises
`KeyError` on read.  Column length is carried separately as `n`. -/
def Table : Type := String → Option (Nat → ℚ)

/-- Errors of the embedded pipeline.  `keyError` models the pandas
`KeyError` on a missing column — the only failure the source can produce.
`configurationError` is modelled from the spec: the repository defines no
`ConfigurationError` class anywhere; the constructor exists only so that the
spec's claimed error kind is expressible, and no embedded definition ever
produces it. -/
inductive PyErr where
  | keyError (col : String)
  | configurationError
deriving DecidableEq

def kA1 : String := "A_char_1"

def kA2 : String := "A_char_2"

def kA3 : String := "A_char_3"

def kA4 : String := "A_char_4"

/-- Line 991 prefixes the bias characteristic column name with the default
`spec_name` `'default'`. -/
def kAbias : String := "default_A_bias_char"

def kAm12 : String := "A_mrs12"

def kAm13 : String := "A_mrs13"

def kAm14 : String := "A_mrs14"

def kB1 : String := "B_char_1"

def kB2 : String := "B_char_2"

def kB3 : String := "B_char_3"

def kB4 : String := "B_char_4"

def kBm12 : String := "B_mrs12"

def kBm13 : String := "B_mrs13"

def kBm14 : String := "B_mrs14"

/-- Line 992 prefixes the bias MRS column name with the default
`spec_name`. -/
def kBbias : String := "default_B_bias_mrs"

/-- Column assignment `data_input[name] = 0` (creates or overwrites). -/
def setCol (t : Table) (name : String) (c : Nat → ℚ) : Table :=
  Function.update t name (some c)

/-- The constant zero column. -/
def zeroCol : Nat → ℚ := fun _ => 0

/-- The zero-filling of lines 1030-1050: reduce the characteristic counts by
assigning zero columns (note each side's count zeroes the *other* side's
MRS columns), and zero both bias columns when bias is off. -/
def prepInput (Anum Bnum : Nat) (bias : Bool) (t : Table) : Table :=
  let t1 :=
    if Anum = 3 then setCol (setCol t kA4 zeroCol) kBm14 zeroCol
    else if Anum = 2 then
      setCol (setCol (setCol (setCol t kA3 zeroCol) kBm13 zeroCol) kA4 zeroCol) kBm14 zeroCol
    else t
  let t2 :=
    if Bnum = 3 then setCol (setCol t1 kB4 zeroCol) kAm14 zeroCol
    else if Bnum = 2 then
      setCol (setCol (setCol (setCol t1 kB3 zeroCol) kAm13 zeroCol) kB4 zeroCol) kAm14 zeroCol
    else t1
  if bias = false then setCol (setCol t2 kAbias zeroCol) kBbias zeroCol else t2

/-- The columns read when the two populations are built, in source order
(the `A` dict literal of lines 1052-1063 then the `B` dict of lines
1066-1077; a Python dict literal evaluates its values in order, so the
first missing column determines the `KeyError`). -/
def readCols : List String :=
  [kA1, kA2, kA3, kA4, kAbias, kAm12, kAm13, kAm14,
   kB1, kB2, kB3, kB4, kBm12, kBm13, kBm14, kBbias]

/-- Construction of the two populations, lines 1052-1078.  Each column read
models `data_input[name]`; the first absent column yields its `KeyError`.
Both `match` columns start `None` and both `match_utility` columns start
`0`. -/
def buildPopulations (t : Table) : Except PyErr ((Nat → AgentA) × (Nat → AgentB)) :=
  match t kA1 with
  | none => Except.error (PyErr.keyError kA1)
  | some a1 =>
  match t kA2 with
  | none => Except.error (PyErr.keyError kA2)
  | some a2 =>
  match t kA3 with
  | none => Except.error (PyErr.keyError kA3)
  | some a3 =>
  match t kA4 with
  | none => Except.error (PyErr.keyError kA4)
  | some a4 =>
  match t kAbias with
  | none => Except.error (PyErr.keyError kAbias)
  | some ab =>
  match t kAm12 with
  | none => Except.error (PyErr.keyError kAm12)
  | some am12 =>
  match t kAm13 with
  | none => Except.error (PyErr.keyError kAm13)
  | some am13 =>
  match t kAm14 with
  | none => Except.error (PyErr.keyError kAm14)
  | some am14 =>
  match t kB1 with
  | none => Except.error (PyErr.keyError kB1)
  | some b1 =>
  match t kB2 with
  | none => Except.error (PyErr.keyError kB2)
  | some b2 =>
  match t kB3 with
  | none => Except.error (PyErr.keyError kB3)
  | some b3 =>
  match t kB4 with
  | none => Except.error (PyErr.keyError kB4)
  | some b4 =>
  match t kBm12 with
  | none => Except.error (PyErr.keyError kBm12)
  | some bm12 =>
  match t kBm13 with
  | none => Except.error (PyErr.keyError kBm13)
  | some bm13 =>
  match t kBm14 with
  | none => Except.error (PyErr.keyError kBm14)
  | some bm14 =>
  match t kBbias with
  | none => Except.error (PyErr.keyError kBbias)
  | some bb =>
    Except.ok
      (fun idx =>
        { char_1 := a1 idx, char_2 := a2 idx, char_3 := a3 idx, char_4 := a4 idx,
          bias_char := ab idx, mrs12 := am12 idx, mrs13 := am13 idx,
          mrs14 := am14 idx, matchId := none, match_utility := 0 },
       fun idx =>
        { char_1 := b1 idx, char_2 := b2 idx, char_3 := b3 idx, char_4 := b4 idx,
          mrs12 := bm12 idx, mrs13 := bm13 idx, mrs14 := bm14 idx,
          bias_mrs := bb idx, matchId := none, match_utility := 0 })

/-- The derived outputs of one `rematcher` call: final populations, final
iteration count, and the derived payoff columns of lines 1258-1279 (the
apparent-payoff columns exist only when bias is on, lines 1264-1267).  The
z-score columns are real-valued functions of these and are omitted. -/
structure RunOutput where
  finalA : Nat → AgentA
  finalB : Nat → AgentB
  iterat : Nat
  A_obs_u : Nat → ℚ
  B_obs_u : Nat → ℚ
  A_dap_u : Nat → ℚ
  B_dap_u : Nat → ℚ
  diff_A : Nat → ℚ
  diff_B : Nat → ℚ
  A_apparent_u : Option (Nat → ℚ)
  A_apparent_corrected_u : Option (Nat → ℚ)

/-- The full embedded `rematcher` pipeline: zero-fill per configuration
(lines 1030-1050), build the populations (lines 1052-1078) — failing there
with the `KeyError` of the first missing column, before any matching state
exists —, run the matching loop, and compile the derived columns. -/
def rematcher (Anum Bnum : Nat) (bias : Bool) (n : Nat) (t : Table) :
    Except PyErr RunOutput :=
  match buildPopulations (prepInput Anum Bnum bias t) with
  | Except.error e => Except.error e
  | Except.ok p =>
    let fin := matchingLoop n (initLoop p.1 p.2)
    Except.ok
      { finalA := fin.ms.A, finalB := fin.ms.B, iterat := fin.iterat,
        A_obs_u := A_obs_u_col fin.ms, B_obs_u := B_obs_u_col fin.ms,
        A_dap_u := A_dap_u_col fin.ms, B_dap_u := B_dap_u_col fin.ms,
        diff_A := diff_A_col fin.ms, diff_B := diff_B_col fin.ms,
        A_apparent_u := if bias then some (A_apparent_u_col n fin.ms) else none,
        A_apparent_corrected_u :=
          if bias then some (A_apparent_corrected_u_col n fin.ms) else none }

/-- The explicit zero-assignments that a 2-characteristic configuration on
both sides performs, in the exact order of lines 1033-1037 and 1042-1046:
characteristics 3 and 4 of both sides and the four corresponding MRS
columns. -/
def zeroFill22 (t : Table) : Table :=
  setCol (setCol (setCol (setCol
    (setCol (setCol (setCol (setCol t kA3 zeroCol) kBm13 zeroCol) kA4 zeroCol) kBm14 zeroCol)
    kB3 zeroCol) kAm13 zeroCol) kB4 zeroCol) kAm14 zeroCol

/-! ## Predicates used by the stated properties -/

/-- The fields of an applicant row never written by the matching loop:
`(char_1, char_2, char_3, char_4, bias_char, mrs12, mrs13, mrs14)`. -/
def staticsA (x : AgentA) : ℚ × ℚ × ℚ × ℚ × ℚ × ℚ × ℚ × ℚ :=
  (x.char_1, x.char_2, x.char_3, x.char_4, x.bias_char, x.mrs12, x.mrs13, x.mrs14)

/-- The fields of a reviewer row never written by the matching loop:
`(char_1, char_2, char_3, char_4, mrs12, mrs13, mrs14, bias_mrs)`. -/
def staticsB (x : AgentB) : ℚ × ℚ × ℚ × ℚ × ℚ × ℚ × ℚ × ℚ :=
  (x.char_1, x.char_2, x.char_3, x.char_4, x.mrs12, x.mrs13, x.mrs14, x.bias_mrs)

/-- Between two states, every agent keeps all fields other than `match` and
`match_utility`. -/
def sameStatics (s s' : MatchState) : Prop :=
  (∀ a, staticsA (s'.A a) = staticsA (s.A a)) ∧
  (∀ b, staticsB (s'.B b) = staticsB (s.B b))

/-- Applicant-side invariant: a matched applicant points at an in-range
reviewer who points back, and stores exactly the applicant-side utility
formula of its counterpart. -/
def InvA (n : Nat) (st : MatchState) : Prop :=
  ∀ a, a < n → ∀ b, (st.A a).matchId = some b →
    b < n ∧ (st.B b).matchId = some a ∧
      (st.A a).match_utility = uA (st.A a) (st.B b)

/-- Reviewer-side invariant: a matched reviewer points at an in-range
applicant who points back, and stores exactly the reviewer-side (biased)
utility formula of its counterpart. -/
def InvB (n : Nat) (st : MatchState) : Prop :=
  ∀ b, b < n → ∀ a, (st.B b).matchId = some a →
    a < n ∧ (st.A a).matchId = some b ∧
      (st.B b).match_utility = uB (st.A a) (st.B b)

/-- The full state invariant. -/
def EngineInv (n : Nat) (st : MatchState) : Prop := InvA n st ∧ InvB n st

/-- Reviewer-welfare evolution between two states: every matched reviewer
stays matched, its `match_utility` never decreases, and it changes holder
only for a strictly larger `match_utility`. -/
def Brel (n : Nat) (s s' : MatchState) : Prop :=
  ∀ b, b < n → ∀ a, (s.B b).matchId = some a →
    ∃ a', (s'.B b).matchId = some a' ∧
      (s.B b).match_utility ≤ (s'.B b).match_utility ∧
      (a' ≠ a → (s.B b).match_utility < (s'.B b).match_utility)

/-! ## Concrete example inputs used by witnesses and counterexamples -/

/-- Helper: a fresh (unmatched) applicant row, fields in declaration order
`(char_1, char_2, char_3, char_4, bias_char, mrs12, mrs13, mrs14)`. -/
def mkA (c1 c2 c3 c4 bc m12 m13 m14 : ℚ) : AgentA :=
  { char_1 := c1, char_2 := c2, char_3 := c3, char_4 := c4, bias_char := bc,
    mrs12 := m12, mrs13 := m13, mrs14 := m14, matchId := none, match_utility := 0 }

/-- Helper: a fresh (unmatched) reviewer row, fields in declaration order
`(char_1, char_2, char_3, char_4, mrs12, mrs13, mrs14, bias_mrs)`. -/
def mkB (c1 c2 c3 c4 m12 m13 m14 bm : ℚ) : AgentB :=
  { char_1 := c1, char_2 := c2, char_3 := c3, char_4 := c4,
    mrs12 := m12, mrs13 := m13, mrs14 := m14, bias_mrs := bm,
    matchId := none, match_utility := 0 }

/-- Two applicants used for the observed-utility counterexample. -/
def exC1A : Nat → AgentA := fun a =>
  if a = 0 then mkA 1 0 0 0 0 0 0 0 else mkA 2 0 0 0 0 0 0 0

/-- Two reviewers used for the observed-utility counterexample: reviewer 0
offers utility 0 to every applicant, reviewer 1 offers 10. -/
def exC1B : Nat → AgentB := fun b =>
  if b = 0 then mkB 0 0 0 0 0 0 0 0 else mkB 10 0 0 0 0 0 0 0

/-- Applicants with heterogeneous MRS: applicant 0 weighs the second
reviewer characteristic at 0, applicant 1 at 10. -/
def exC3 : MatchState :=
  { A := fun a => if a = 0 then mkA 0 0 0 0 0 0 0 0 else mkA 0 0 0 0 0 10 0 0,
    B := fun b => if b = 0 then mkB 5 0 0 0 0 0 0 0 else mkB 4 1 0 0 0 0 0 0 }

/-- One biased population pair: the applicant has bias characteristic 1, the
reviewer has bias weight `-25`. -/
def exC4A : Nat → AgentA := fun _ => mkA 1 0 0 0 1 0 0 0

def exC4B : Nat → AgentB := fun _ => mkB 2 0 0 0 0 0 0 (-25)

def exC5A : Nat → AgentA := fun _ => mkA 1 0 0 0 0 0 0 0

def exC5B : Nat → AgentB := fun _ => mkB 1 0 0 0 0 0 0 0

def exC6A : Nat → AgentA := fun _ => mkA 1 0 0 0 0 0 0 0

def exC6B : Nat → AgentB := fun _ => mkB 1 0 0 0 0 0 0 0

def exC7A : Nat → AgentA := fun _ => mkA 1 0 0 0 0 0 0 0

def exC7B : Nat → AgentB := fun _ => mkB 1 0 0 0 0 0 0 0

/-- A mid-loop state with an exact tie: applicant 0 is unmatched, reviewer 0
(the top-ranked reviewer) holds applicant 1, and both applicants have the
same characteristics, so the reviewer values them identically. -/
def exC8 : MatchState :=
  { A := fun a =>
      if a = 0 then mkA 3 0 0 0 0 0 0 0
      else { mkA 3 0 0 0 0 0 0 0 with matchId := some 0, match_utility := 1 },
    B := fun b =>
      if b = 0 then { mkB 1 0 0 0 0 0 0 0 with matchId := some 1, match_utility := 3 }
      else mkB 0 0 0 0 0 0 0 0 }

/-- A table holding every default-named column except `A_char_1`. -/
def tMissing : Table := fun name => if name = kA1 then none else some zeroCol

/-- A 2-reviewer state whose two network rows carry exactly equal utility,
exercising the tie rule of the descending sort. -/
def exC3tie : MatchState :=
  { A := fun _ => mkA 0 0 0 0 0 1 0 0,
    B := fun _ => mkB 5 0 0 0 0 0 0 0 }

/-- An incomplete final-shaped state with bias on: the single matched pair
is applicant 1 with reviewer 0 (stored utilities consistent with the
formulas, reviewer side biased at rate `-25`); applicant 0 and reviewer 1
are unmatched.  Because the matched-applicant ids are not an initial
segment of the row index, the sort of `B` by `match` puts the unmatched
reviewer in row 1. -/
def exC4bad : MatchState :=
  { A := fun a =>
      if a = 0 then mkA 5 0 0 0 0 0 0 0
      else { mkA 1 0 0 0 1 0 0 0 with matchId := some 0, match_utility := 2 },
    B := fun b =>
      if b = 0 then
        { mkB 2 0 0 0 0 0 0 (-25) with matchId := some 1, match_utility := -24 }
      else mkB 0 0 0 0 0 0 0 (-25) }

/-- Number of matched reviewers among ids `0..n-1`. -/
def matchedCount (n : Nat) (st : MatchState) : Nat :=
  ((Finset.range n).filter fun b => ((st.B b).matchId).isSome = true).card

/-! ## Theorems -/

/-- Changing only `match` and `match_utility` of the applicant leaves `uA`
unchanged (it reads only MRS fields of the applicant). -/
theorem uA_modA (a : AgentA) (m : Option Nat) (u : ℚ) (b : AgentB) :
    uA { a with matchId := m, match_utility := u } b = uA a b := rfl

/-- Changing only `match` and `match_utility` of the reviewer leaves `uA`
unchanged (it reads only characteristic fields of the reviewer). -/
theorem uA_modB (a : AgentA) (b : AgentB) (m : Option Nat) (u : ℚ) :
    uA a { b with matchId := m, match_utility := u } = uA a b := rfl

/-- Changing only `match` and `match_utility` of the applicant leaves `uB`
unchanged. -/
theorem uB_modA (a : AgentA) (m : Option Nat) (u : ℚ) (b : AgentB) :
    uB { a with matchId := m, match_utility := u } b = uB a b := rfl

/-- Changing only `match` and `match_utility` of the reviewer leaves `uB`
unchanged. -/
theorem uB_modB (a : AgentA) (b : AgentB) (m : Option Nat) (u : ℚ) :
    uB a { b with matchId := m, match_utility := u } = uB a b := rfl

theorem formMatch_A_apply (st : MatchState) (i qth a : Nat) :
    (formMatch st i qth).A a =
      if a = i then
        { st.A i with matchId := some qth, match_utility := uA (st.A i) (st.B qth) }
      else st.A a := by
  simp [formMatch, Function.update_apply]

theorem formMatch_B_apply (st : MatchState) (i qth b : Nat) :
    (formMatch st i qth).B b =
      if b = qth then
        { st.B qth with matchId := some i, match_utility := uB (st.A i) (st.B qth) }
      else st.B b := by
  simp [formMatch, Function.update_apply]

theorem breakupMatch_B_apply (st : MatchState) (i qth current : Nat) (iu : ℚ) (b : Nat) :
    (breakupMatch st i qth current iu).B b =
      if b = qth then { st.B qth with matchId := some i, match_utility := iu }
      else st.B b := by
  simp [breakupMatch, Function.update_apply]

theorem breakupMatch_A_apply (st : MatchState) (i qth current : Nat) (iu : ℚ) (a : Nat) :
    (breakupMatch st i qth current iu).A a =
      if a = i then
        { (if i = current then
            { st.A current with matchId := none, match_utility := 0 }
           else st.A i) with
          matchId := some qth,
          match_utility :=
            uA (if i = current then
                  { st.A current with matchId := none, match_utility := 0 }
                else st.A i) (st.B qth) }
      else if a = current then { st.A current with matchId := none, match_utility := 0 }
      else st.A a := by
  by_cases h1 : a = i
  all_goals by_cases h2 : a = current
  all_goals simp [breakupMatch, Function.update_apply, h1, h2]

/-- The reviewer just matched by `formMatch` holds the proposer. -/
theorem formMatch_B_same (st : MatchState) (i qth : Nat) :
    ((formMatch st i qth).B qth).matchId = some i := by
  simp [formMatch_B_apply]

/-- Case characterization of the per-applicant step: either the state is
unchanged (applicant already matched, rejection, or exact tie), or a match
with an available reviewer forms, or the incumbent is displaced by a
strictly better proposer. -/
theorem processOne_spec (n q : Nat) (st : MatchState) (i : Nat) :
    processOne n q st i = st
    ∨ ((st.A i).matchId = none ∧ (st.B (qth_best_id n q st)).matchId = none
        ∧ processOne n q st i = formMatch st i (qth_best_id n q st))
    ∨ (∃ j, (st.A i).matchId = none ∧ (st.B (qth_best_id n q st)).matchId = some j
        ∧ uB (st.A j) (st.B (qth_best_id n q st))
            < uB (st.A i) (st.B (qth_best_id n q st))
        ∧ processOne n q st i
            = breakupMatch st i (qth_best_id n q st) j
                (uB (st.A i) (st.B (qth_best_id n q st)))) := by
  by_cases hA : (st.A i).matchId = none
  · by_cases hB : (st.B (qth_best_id n q st)).matchId = none
    · refine Or.inr (Or.inl ⟨hA, hB, ?_⟩)
      simp only [processOne, hA, if_true, hB, formMatch_B_same, lt_self_iff_false,
        if_false]
    · rcases hopt : (st.B (qth_best_id n q st)).matchId with _ | j
      · exact absurd hopt hB
      by_cases hlt : uB (st.A j) (st.B (qth_best_id n q st))
          < uB (st.A i) (st.B (qth_best_id n q st))
      · refine Or.inr (Or.inr ⟨j, hA, rfl, hlt, ?_⟩)
        simp only [processOne, hA, if_true, hopt, if_false, hlt,
          reduceCtorEq, ite_false]
      · refine Or.inl ?_
        simp only [processOne, hA, if_true, hopt, if_false, hlt,
          reduceCtorEq, ite_false]
  · exact Or.inl (by simp [processOne, hA])

theorem staticsA_mod (a : AgentA) (m : Option Nat) (u : ℚ) :
    staticsA { a with matchId := m, match_utility := u } = staticsA a := rfl

theorem staticsB_mod (b : AgentB) (m : Option Nat) (u : ℚ) :
    staticsB { b with matchId := m, match_utility := u } = staticsB b := rfl

theorem sameStatics_refl (s : MatchState) : sameStatics s s :=
  ⟨fun _ => rfl, fun _ => rfl⟩

theorem sameStatics_trans {s1 s2 s3 : MatchState}
    (h1 : sameStatics s1 s2) (h2 : sameStatics s2 s3) : sameStatics s1 s3 :=
  ⟨fun a => (h2.1 a).trans (h1.1 a), fun b => (h2.2 b).trans (h1.2 b)⟩

theorem processOne_sameStatics (n q : Nat) (st : MatchState) (i : Nat) :
    sameStatics st (processOne n q st i) := by
  rcases processOne_spec n q st i with h | ⟨_, _, h⟩ | ⟨j, _, _, _, h⟩
  · rw [h]; exact sameStatics_refl st
  · rw [h]
    constructor
    · intro a
      rw [formMatch_A_apply]
      by_cases ha : a = i
      · rw [if_pos ha, ha, staticsA_mod]
      · rw [if_neg ha]
    · intro b
      rw [formMatch_B_apply]
      by_cases hb : b = qth_best_id n q st
      · rw [if_pos hb, hb, staticsB_mod]
      · rw [if_neg hb]
  · rw [h]
    constructor
    · intro a
      rw [breakupMatch_A_apply]
      by_cases ha : a = i
      · rw [if_pos ha, ha]
        by_cases hc : i = j
        · rw [if_pos hc, staticsA_mod, staticsA_mod, hc]
        · rw [if_neg hc, staticsA_mod]
      · rw [if_neg ha]
        by_cases hc : a = j
        · rw [if_pos hc, hc, staticsA_mod]
        · rw [if_neg hc]
    · intro b
      rw [breakupMatch_B_apply]
      by_cases hb : b = qth_best_id n q st
      · rw [if_pos hb, hb, staticsB_mod]
      · rw [if_neg hb]

theorem foldl_sameStatics (n q : Nat) (l : List Nat) (st : MatchState) :
    sameStatics st (l.foldl (processOne n q) st) := by
  induction l generalizing st with
  | nil => exact sameStatics_refl st
  | cons x xs ih =>
      exact sameStatics_trans (processOne_sameStatics n q st x) (ih _)

theorem iterStep_sameStatics (n : Nat) (st : LoopState) :
    sameStatics st.ms (iterStep n st).ms :=
  foldl_sameStatics n st.q (List.range n) st.ms

theorem iterate_sameStatics (n : Nat) (st : LoopState) (k : Nat) :
    sameStatics st.ms (((iterStep n)^[k]) st).ms := by
  induction k generalizing st with
  | zero => exact sameStatics_refl st.ms
  | succ m ih =>
      rw [Function.iterate_succ_apply]
      exact sameStatics_trans (iterStep_sameStatics n st) (ih (iterStep n st))

theorem loopFuel_sameStatics (n k : Nat) (st : LoopState) :
    sameStatics st.ms (loopFuel n k st).ms := by
  induction k generalizing st with
  | zero => exact sameStatics_refl st.ms
  | succ m ih =>
      rw [loopFuel]
      by_cases h : st.all_matched = true
      · rw [if_pos h]; exact sameStatics_refl st.ms
      · rw [if_neg h]
        exact sameStatics_trans (iterStep_sameStatics n st) (ih (iterStep n st))

/-- Every row of the sorted network is a row of the network. -/
theorem sort_values_desc_perm (l : List NetEntry) : List.Perm (sort_values_desc l) l :=
  ((List.insertionSort leU l.reverse).reverse_perm.trans
    (List.perm_insertionSort leU l.reverse)).trans l.reverse_perm

/-- The proposal target is always an in-range reviewer id. -/
theorem qth_best_lt (n q : Nat) (st : MatchState) (hn : 0 < n) :
    qth_best_id n q st < n := by
  unfold qth_best_id
  rw [List.getD_eq_getD_get?]
  rcases hget : (sort_values_desc (network n st)).get? (q - 1) with _ | e
  · simpa using hn
  · have he : e ∈ sort_values_desc (network n st) := List.get?_mem hget
    have he2 : e ∈ network n st := (sort_values_desc_perm (network n st)).mem_iff.mp he
    simp only [network, List.mem_map, List.mem_range] at he2
    obtain ⟨j, hj, hje⟩ := he2
    simpa [← hje] using hj

theorem breakupMatch_A_apply_ne (st : MatchState) (i qth j : Nat) (iu : ℚ)
    (hij : i ≠ j) (a : Nat) :
    (breakupMatch st i qth j iu).A a =
      if a = i then
        { st.A i with matchId := some qth, match_utility := uA (st.A i) (st.B qth) }
      else if a = j then { st.A j with matchId := none, match_utility := 0 }
      else st.A a := by
  rw [breakupMatch_A_apply, if_neg hij]

theorem inv_formMatch (n : Nat) (st : MatchState) (i qth : Nat)
    (hi : i < n) (hq : qth < n)
    (hA : (st.A i).matchId = none) (hB : (st.B qth).matchId = none)
    (h : EngineInv n st) : EngineInv n (formMatch st i qth) := by
  obtain ⟨hIA, hIB⟩ := h
  constructor
  · intro a ha b hab
    rw [formMatch_A_apply] at hab
    by_cases hai : a = i
    · subst hai
      rw [if_pos rfl] at hab
      have hb : b = qth := by simpa using hab.symm
      subst hb
      refine ⟨hq, ?_, ?_⟩
      · simp [formMatch_B_apply]
      · simp [formMatch_A_apply, formMatch_B_apply, uA_modA, uA_modB]
    · rw [if_neg hai] at hab
      obtain ⟨hbn, hback, hu⟩ := hIA a ha b hab
      have hbq : b ≠ qth := by
        intro hbq
        subst hbq
        rw [hback] at hB
        exact Option.noConfusion hB
      refine ⟨hbn, ?_, ?_⟩
      · rw [formMatch_B_apply, if_neg hbq]
        exact hback
      · rw [formMatch_A_apply, if_neg hai, formMatch_B_apply, if_neg hbq]
        exact hu
  · intro b hb a hba
    rw [formMatch_B_apply] at hba
    by_cases hbq : b = qth
    · subst hbq
      rw [if_pos rfl] at hba
      have ha : a = i := by simpa using hba.symm
      subst ha
      refine ⟨hi, ?_, ?_⟩
      · simp [formMatch_A_apply]
      · simp [formMatch_A_apply, formMatch_B_apply, uB_modA, uB_modB]
    · rw [if_neg hbq] at hba
      obtain ⟨han, hback, hu⟩ := hIB b hb a hba
      have hani : a ≠ i := by
        intro hai
        subst hai
        rw [hback] at hA
        exact Option.noConfusion hA
      refine ⟨han, ?_, ?_⟩
      · rw [formMatch_A_apply, if_neg hani]
        exact hback
      · rw [formMatch_B_apply, if_neg hbq, formMatch_A_apply, if_neg hani]
        exact hu

theorem inv_breakupMatch (n : Nat) (st : MatchState) (i qth j : Nat)
    (hi : i < n) (hq : qth < n)
    (hA : (st.A i).matchId = none) (hB : (st.B qth).matchId = some j)
    (h : EngineInv n st) :
    EngineInv n (breakupMatch st i qth j (uB (st.A i) (st.B qth))) := by
  obtain ⟨hIA, hIB⟩ := h
  obtain ⟨hj, hAj, _⟩ := hIB qth hq j hB
  have hij : i ≠ j := by
    intro hij
    subst hij
    rw [hAj] at hA
    exact Option.noConfusion hA
  constructor
  · intro a ha b hab
    rw [breakupMatch_A_apply_ne _ _ _ _ _ hij] at hab
    by_cases hai : a = i
    · subst hai
      rw [if_pos rfl] at hab
      have hb : b = qth := by simpa using hab.symm
      subst hb
      refine ⟨hq, ?_, ?_⟩
      · simp [breakupMatch_B_apply]
      · simp [breakupMatch_A_apply_ne _ _ _ _ _ hij, breakupMatch_B_apply,
          uA_modA, uA_modB]
    · rw [if_neg hai] at hab
      by_cases haj : a = j
      · subst haj
        rw [if_pos rfl] at hab
        exact Option.noConfusion hab
      · rw [if_neg haj] at hab
        obtain ⟨hbn, hback, hu⟩ := hIA a ha b hab
        have hbq : b ≠ qth := by
          intro hbq
          subst hbq
          rw [hback] at hB
          have : j = a := by simpa using hB.symm
          exact haj this.symm
        refine ⟨hbn, ?_, ?_⟩
        · rw [breakupMatch_B_apply, if_neg hbq]
          exact hback
        · rw [breakupMatch_A_apply_ne _ _ _ _ _ hij, if_neg hai, if_neg haj,
            breakupMatch_B_apply, if_neg hbq]
          exact hu
  · intro b hb a hba
    rw [breakupMatch_B_apply] at hba
    by_cases hbq : b = qth
    · subst hbq
      rw [if_pos rfl] at hba
      have ha : a = i := by simpa using hba.symm
      subst ha
      refine ⟨hi, ?_, ?_⟩
      · simp [breakupMatch_A_apply_ne _ _ _ _ _ hij]
      · simp [breakupMatch_A_apply_ne _ _ _ _ _ hij, breakupMatch_B_apply,
          uB_modA, uB_modB]
    · rw [if_neg hbq] at hba
      obtain ⟨han, hback, hu⟩ := hIB b hb a hba
      have hani : a ≠ i := by
        intro hai
        subst hai
        rw [hback] at hA
        exact Option.noConfusion hA
      have hanj : a ≠ j := by
        intro haj
        subst haj
        rw [hback] at hAj
        have : qth = b := by simpa using hAj.symm
        exact hbq this.symm
      refine ⟨han, ?_, ?_⟩
      · rw [breakupMatch_A_apply_ne _ _ _ _ _ hij, if_neg hani, if_neg hanj]
        exact hback
      · rw [breakupMatch_B_apply, if_neg hbq,
          breakupMatch_A_apply_ne _ _ _ _ _ hij, if_neg hani, if_neg hanj]
        exact hu

theorem inv_processOne (n q : Nat) (st : MatchState) (i : Nat)
    (hi : i < n) (h : EngineInv n st) : EngineInv n (processOne n q st i) := by
  have hq : qth_best_id n q st < n := qth_best_lt n q st (Nat.zero_lt_of_lt hi)
  rcases processOne_spec n q st i with heq | ⟨hA, hB, heq⟩ | ⟨j, hA, hB, _, heq⟩
  · rw [heq]; exact h
  · rw [heq]; exact inv_formMatch n st i _ hi hq hA hB h
  · rw [heq]; exact inv_breakupMatch n st i _ j hi hq hA hB h

theorem Brel_refl (n : Nat) (s : MatchState) : Brel n s s :=
  fun _ _ a hab => ⟨a, hab, le_refl _, fun hne => absurd rfl hne⟩

theorem Brel_trans {n : Nat} {s1 s2 s3 : MatchState}
    (h12 : Brel n s1 s2) (h23 : Brel n s2 s3) : Brel n s1 s3 := by
  intro b hb a hab
  obtain ⟨a2, ha2, hle2, hstrict2⟩ := h12 b hb a hab
  obtain ⟨a3, ha3, hle3, hstrict3⟩ := h23 b hb a2 ha2
  refine ⟨a3, ha3, le_trans hle2 hle3, ?_⟩
  intro hne
  by_cases h32 : a3 = a2
  · subst h32
    exact lt_of_lt_of_le (hstrict2 hne) hle3
  · exact lt_of_le_of_lt hle2 (hstrict3 h32)

theorem processOne_Brel (n q : Nat) (st : MatchState) (i : Nat)
    (hi : i < n) (h : EngineInv n st) : Brel n st (processOne n q st i) := by
  have hq : qth_best_id n q st < n := qth_best_lt n q st (Nat.zero_lt_of_lt hi)
  rcases processOne_spec n q st i with heq | ⟨hA, hB, heq⟩ | ⟨j, hA, hB, hlt, heq⟩
  · rw [heq]; exact Brel_refl n st
  · rw [heq]
    intro b hb a hab
    have hbq : b ≠ qth_best_id n q st := by
      intro hbq
      subst hbq
      rw [hab] at hB
      exact Option.noConfusion hB
    exact ⟨a, by rw [formMatch_B_apply, if_neg hbq]; exact hab,
      by rw [formMatch_B_apply, if_neg hbq], fun hne => absurd rfl hne⟩
  · rw [heq]
    intro b hb a hab
    by_cases hbq : b = qth_best_id n q st
    · subst hbq
      have haj : a = j := by
        rw [hab] at hB
        simpa using hB
      subst haj
      have hu : (st.B (qth_best_id n q st)).match_utility
          = uB (st.A a) (st.B (qth_best_id n q st)) := (h.2 _ hb a hab).2.2
      refine ⟨i, ?_, ?_, ?_⟩
      · rw [breakupMatch_B_apply, if_pos rfl]
      · rw [breakupMatch_B_apply, if_pos rfl]
        simpa [hu] using le_of_lt hlt
      · intro _
        rw [breakupMatch_B_apply, if_pos rfl]
        simpa [hu] using hlt
    · refine ⟨a, ?_, ?_, fun hne => absurd rfl hne⟩
      · rw [breakupMatch_B_apply, if_neg hbq]
        exact hab
      · rw [breakupMatch_B_apply, if_neg hbq]

theorem foldl_inv_brel (n q : Nat) (l : List Nat) (st : MatchState)
    (hl : ∀ x ∈ l, x < n) (h : EngineInv n st) :
    EngineInv n (l.foldl (processOne n q) st) ∧
      Brel n st (l.foldl (processOne n q) st) := by
  induction l generalizing st with
  | nil => exact ⟨h, Brel_refl n st⟩
  | cons x xs ih =>
      have hx : x < n := hl x (List.mem_cons_self x xs)
      have h1 : EngineInv n (processOne n q st x) := inv_processOne n q st x hx h
      have h2 : Brel n st (processOne n q st x) := processOne_Brel n q st x hx h
      obtain ⟨h3, h4⟩ := ih (processOne n q st x)
        (fun y hy => hl y (List.mem_cons_of_mem x hy)) h1
      exact ⟨h3, Brel_trans h2 h4⟩

theorem iterStep_inv (n : Nat) (st : LoopState) (h : EngineInv n st.ms) :
    EngineInv n (iterStep n st).ms :=
  (foldl_inv_brel n st.q (List.range n) st.ms
    (fun x hx => List.mem_range.mp hx) h).1

theorem iterStep_Brel (n : Nat) (st : LoopState) (h : EngineInv n st.ms) :
    Brel n st.ms (iterStep n st).ms :=
  (foldl_inv_brel n st.q (List.range n) st.ms
    (fun x hx => List.mem_range.mp hx) h).2

theorem iterate_inv (n : Nat) (st : LoopState) (k : Nat) (h : EngineInv n st.ms) :
    EngineInv n (((iterStep n)^[k]) st).ms := by
  induction k generalizing st with
  | zero => exact h
  | succ m ih =>
      rw [Function.iterate_succ_apply]
      exact ih (iterStep n st) (iterStep_inv n st h)

theorem iterate_Brel (n : Nat) (st : LoopState) (k : Nat) (h : EngineInv n st.ms) :
    Brel n st.ms (((iterStep n)^[k]) st).ms := by
  induction k generalizing st with
  | zero => exact Brel_refl n st.ms
  | succ m ih =>
      rw [Function.iterate_succ_apply]
      exact Brel_trans (iterStep_Brel n st h)
        (ih (iterStep n st) (iterStep_inv n st h))

theorem loopFuel_inv (n k : Nat) (st : LoopState) (h : EngineInv n st.ms) :
    EngineInv n (loopFuel n k st).ms := by
  induction k generalizing st with
  | zero => exact h
  | succ m ih =>
      rw [loopFuel]
      by_cases hm : st.all_matched = true
      · rw [if_pos hm]; exact h
      · rw [if_neg hm]
        exact ih (iterStep n st) (iterStep_inv n st h)

theorem inv_initial (A0 : Nat → AgentA) (B0 : Nat → AgentB) (n : Nat)
    (hA0 : ∀ a, (A0 a).matchId = none) (hB0 : ∀ b, (B0 b).matchId = none) :
    EngineInv n (initLoop A0 B0).ms := by
  constructor
  · intro a _ b hab
    rw [initLoop] at hab
    rw [hA0 a] at hab
    exact Option.noConfusion hab
  · intro b _ a hba
    rw [initLoop] at hba
    rw [hB0 b] at hba
    exact Option.noConfusion hba

theorem iterStep_iterat (n : Nat) (st : LoopState) :
    (iterStep n st).iterat = st.iterat + 1 := rfl

theorem loopFuel_stop (n k : Nat) (st : LoopState) (h : st.all_matched = true) :
    loopFuel n k st = st := by
  cases k with
  | zero => rfl
  | succ m => rw [loopFuel, if_pos h]

theorem iterStep_flag_of_cap (n : Nat) (st : LoopState) (h : 1000 < st.iterat + 1) :
    (iterStep n st).all_matched = true := by
  simp [iterStep, h]

theorem loopFuel_flag (n : Nat) :
    ∀ (k : Nat) (st : LoopState), 1001 - st.iterat < k →
      (loopFuel n k st).all_matched = true := by
  intro k
  induction k with
  | zero => intro st h; omega
  | succ m ih =>
      intro st h
      rw [loopFuel]
      by_cases hm : st.all_matched = true
      · rw [if_pos hm]; exact hm
      · rw [if_neg hm]
        by_cases hit : st.iterat ≤ 1000
        · apply ih
          rw [iterStep_iterat]
          omega
        · have hflag : (iterStep n st).all_matched = true := by
            apply iterStep_flag_of_cap
            omega
          rw [loopFuel_stop n m _ hflag]
          exact hflag

theorem loopFuel_iterat_le (n : Nat) :
    ∀ (k : Nat) (st : LoopState), st.iterat ≤ 1000 →
      (loopFuel n k st).iterat ≤ 1001 := by
  intro k
  induction k with
  | zero =>
      intro st h
      show st.iterat ≤ 1001
      omega
  | succ m ih =>
      intro st h
      rw [loopFuel]
      by_cases hm : st.all_matched = true
      · rw [if_pos hm]; omega
      · rw [if_neg hm]
        by_cases h1 : st.iterat + 1 ≤ 1000
        · apply ih
          rw [iterStep_iterat]
          exact h1
        · have hflag : (iterStep n st).all_matched = true := by
            apply iterStep_flag_of_cap
            omega
          rw [loopFuel_stop n m _ hflag, iterStep_iterat]
          omega

theorem iterStep_flag_of_matched (n : Nat) (st : LoopState)
    (h : ∀ j, j < n → (((iterStep n st).ms.B j).matchId).isSome = true) :
    (iterStep n st).all_matched = true := by
  by_cases hc : 1000 < st.iterat + 1
  · exact iterStep_flag_of_cap n st hc
  · show (if 1000 < st.iterat + 1 then true
        else (List.range n).all fun j =>
          ((applicantPass n st.q st.ms).B j).matchId.isSome) = true
    rw [if_neg hc, List.all_eq_true]
    intro j hj
    exact h j (List.mem_range.mp hj)

/-- C5: starting from `iterat = 0` the matching loop always terminates with
the `all_matched` flag set; its body executes at most 1001 times (the final
value of `iterat` counts body executions); the loop exits immediately once
the flag is set at the end of an iteration; and the flag is set as soon as
every reviewer holds a match at the end of an iteration (or the counter
exceeds the hard cap of 1000). -/
theorem C5_loop_terminates (n : Nat) (st : LoopState) (h0 : st.iterat = 0) :
    (matchingLoop n st).all_matched = true ∧
    (matchingLoop n st).iterat ≤ 1001 ∧
    (∀ stp : LoopState, stp.all_matched = true → matchingLoop n stp = stp) ∧
    (∀ stp : LoopState,
      (∀ j, j < n → (((iterStep n stp).ms.B j).matchId).isSome = true) →
        (iterStep n stp).all_matched = true) := by
  refine ⟨?_, ?_, ?_, ?_⟩
  · exact loopFuel_flag n 1002 st (by omega)
  · exact loopFuel_iterat_le n 1002 st (by omega)
  · intro stp hp
    exact loopFuel_stop n 1002 stp hp
  · intro stp hp
    exact iterStep_flag_of_matched n stp hp

/-- Witness for C5 at a concrete size-1 market. -/
theorem C5_loop_terminates_witness :
    (matchingLoop 1 (initLoop exC5A exC5B)).all_matched = true ∧
    (matchingLoop 1 (initLoop exC5A exC5B)).iterat ≤ 1001 ∧
    (∀ stp : LoopState, stp.all_matched = true → matchingLoop 1 stp = stp) ∧
    (∀ stp : LoopState,
      (∀ j, j < 1 → (((iterStep 1 stp).ms.B j).matchId).isSome = true) →
        (iterStep 1 stp).all_matched = true) :=
  C5_loop_terminates 1 (initLoop exC5A exC5B) rfl

/-- C6: at the end of every iteration (the `k`-fold iterate of the loop
body from the initial state), the match assignment is one-to-one in both
directions and symmetric on the two in-range populations. -/
theorem C6_one_to_one_symmetric (n : Nat) (A0 : Nat → AgentA) (B0 : Nat → AgentB)
    (hA0 : ∀ a, (A0 a).matchId = none) (hB0 : ∀ b, (B0 b).matchId = none)
    (k : Nat) :
    (∀ a1 a2 b, a1 < n → a2 < n →
      ((((iterStep n)^[k]) (initLoop A0 B0)).ms.A a1).matchId = some b →
      ((((iterStep n)^[k]) (initLoop A0 B0)).ms.A a2).matchId = some b →
        a1 = a2) ∧
    (∀ b1 b2 a, b1 < n → b2 < n →
      ((((iterStep n)^[k]) (initLoop A0 B0)).ms.B b1).matchId = some a →
      ((((iterStep n)^[k]) (initLoop A0 B0)).ms.B b2).matchId = some a →
        b1 = b2) ∧
    (∀ a b, a < n → b < n →
      (((((iterStep n)^[k]) (initLoop A0 B0)).ms.A a).matchId = some b ↔
       ((((iterStep n)^[k]) (initLoop A0 B0)).ms.B b).matchId = some a)) := by
  have hInv : EngineInv n (((iterStep n)^[k]) (initLoop A0 B0)).ms :=
    iterate_inv n (initLoop A0 B0) k (inv_initial A0 B0 n hA0 hB0)
  refine ⟨?_, ?_, ?_⟩
  · intro a1 a2 b ha1 ha2 h1 h2
    have hb1 := (hInv.1 a1 ha1 b h1).2.1
    have hb2 := (hInv.1 a2 ha2 b h2).2.1
    rw [hb1] at hb2
    simpa using hb2
  · intro b1 b2 a hb1 hb2 h1 h2
    have ha1 := (hInv.2 b1 hb1 a h1).2.1
    have ha2 := (hInv.2 b2 hb2 a h2).2.1
    rw [ha1] at ha2
    simpa using ha2
  · intro a b ha hb
    constructor
    · intro h
      exact (hInv.1 a ha b h).2.1
    · intro h
      exact (hInv.2 b hb a h).2.1

/-- Witness for C6 at a concrete size-1 market after one iteration. -/
theorem C6_one_to_one_symmetric_witness :
    (∀ a1 a2 b, a1 < 1 → a2 < 1 →
      ((((iterStep 1)^[1]) (initLoop exC6A exC6B)).ms.A a1).matchId = some b →
      ((((iterStep 1)^[1]) (initLoop exC6A exC6B)).ms.A a2).matchId = some b →
        a1 = a2) ∧
    (∀ b1 b2 a, b1 < 1 → b2 < 1 →
      ((((iterStep 1)^[1]) (initLoop exC6A exC6B)).ms.B b1).matchId = some a →
      ((((iterStep 1)^[1]) (initLoop exC6A exC6B)).ms.B b2).matchId = some a →
        b1 = b2) ∧
    (∀ a b, a < 1 → b < 1 →
      (((((iterStep 1)^[1]) (initLoop exC6A exC6B)).ms.A a).matchId = some b ↔
       ((((iterStep 1)^[1]) (initLoop exC6A exC6B)).ms.B b).matchId = some a)) :=
  C6_one_to_one_symmetric 1 exC6A exC6B (fun _ => rfl) (fun _ => rfl) 1

/-- C7: once a reviewer is matched at the end of some iteration `k`, at
every later iteration `kp` it is still matched, its `match_utility` has not
decreased, and it holds a different applicant only if its `match_utility`
strictly increased. -/
theorem C7_reviewer_welfare_monotone (n : Nat) (A0 : Nat → AgentA)
    (B0 : Nat → AgentB)
    (hA0 : ∀ a, (A0 a).matchId = none) (hB0 : ∀ b, (B0 b).matchId = none)
    (k kp : Nat) (hk : k ≤ kp) (b : Nat) (hb : b < n) (a : Nat)
    (hmatch : ((((iterStep n)^[k]) (initLoop A0 B0)).ms.B b).matchId = some a) :
    ∃ a2, ((((iterStep n)^[kp]) (initLoop A0 B0)).ms.B b).matchId = some a2 ∧
      ((((iterStep n)^[k]) (initLoop A0 B0)).ms.B b).match_utility ≤
        ((((iterStep n)^[kp]) (initLoop A0 B0)).ms.B b).match_utility ∧
      (a2 ≠ a →
        ((((iterStep n)^[k]) (initLoop A0 B0)).ms.B b).match_utility <
          ((((iterStep n)^[kp]) (initLoop A0 B0)).ms.B b).match_utility) := by
  have hInvk : EngineInv n (((iterStep n)^[k]) (initLoop A0 B0)).ms :=
    iterate_inv n (initLoop A0 B0) k (inv_initial A0 B0 n hA0 hB0)
  have hsplit : ((iterStep n)^[kp]) (initLoop A0 B0)
      = ((iterStep n)^[kp - k]) (((iterStep n)^[k]) (initLoop A0 B0)) := by
    rw [← Function.iterate_add_apply]
    congr 1
    omega
  rw [hsplit]
  exact iterate_Brel n (((iterStep n)^[k]) (initLoop A0 B0)) (kp - k) hInvk
    b hb a hmatch

/-- Witness for C7: the single reviewer of a size-1 market, matched after
iteration 1, compared with its state after iteration 2. -/
theorem C7_reviewer_welfare_monotone_witness :
    ∃ a2, ((((iterStep 1)^[2]) (initLoop exC7A exC7B)).ms.B 0).matchId = some a2 ∧
      ((((iterStep 1)^[1]) (initLoop exC7A exC7B)).ms.B 0).match_utility ≤
        ((((iterStep 1)^[2]) (initLoop exC7A exC7B)).ms.B 0).match_utility ∧
      (a2 ≠ 0 →
        ((((iterStep 1)^[1]) (initLoop exC7A exC7B)).ms.B 0).match_utility <
          ((((iterStep 1)^[2]) (initLoop exC7A exC7B)).ms.B 0).match_utility) :=
  C7_reviewer_welfare_monotone 1 exC7A exC7B (fun _ => rfl) (fun _ => rfl)
    1 2 (by omega) 0 (by omega) 0 (by with_unfolding_all decide)

/-- C10: throughout the matching loop — across any single applicant step,
any number of whole iterations, and the loop as a whole — every agent keeps
all its fields other than `match` and `match_utility` (its characteristics,
bias field and MRS weights, collected by `staticsA`/`staticsB`). -/
theorem C10_only_match_fields_written (n : Nat) :
    (∀ q st i, sameStatics st (processOne n q st i)) ∧
    (∀ (st : LoopState) (k : Nat), sameStatics st.ms (((iterStep n)^[k]) st).ms) ∧
    (∀ st : LoopState, sameStatics st.ms (matchingLoop n st).ms) :=
  ⟨fun q st i => processOne_sameStatics n q st i,
   fun st k => iterate_sameStatics n st k,
   fun st => loopFuel_sameStatics n 1002 st⟩

/-- C8: when an unmatched applicant proposes to a matched reviewer and the
reviewer's utility for the proposer exactly equals its utility for the
incumbent, the whole per-applicant step is the identity: the incumbent
stays, the proposer stays unmatched, and no breakup happens (both
comparisons at lines 1173 and 1187 are strict). -/
theorem C8_tie_keeps_incumbent (n q : Nat) (st : MatchState) (i j : Nat)
    (h1 : (st.A i).matchId = none)
    (h2 : (st.B (qth_best_id n q st)).matchId = some j)
    (h3 : uB (st.A j) (st.B (qth_best_id n q st))
        = uB (st.A i) (st.B (qth_best_id n q st))) :
    processOne n q st i = st := by
  rcases processOne_spec n q st i with heq | ⟨_, hB, _⟩ | ⟨j2, _, hB, hlt, _⟩
  · exact heq
  · rw [h2] at hB
    exact Option.noConfusion hB
  · rw [h2] at hB
    have hj : j = j2 := by simpa using hB
    rw [← hj, h3] at hlt
    exact absurd hlt (lt_irrefl _)

/-- Witness for C8: a concrete tie (both applicants have characteristics
`(3,0,0,0)`, reviewer 0 holds applicant 1 and is proposed to by
applicant 0). -/
theorem C8_tie_keeps_incumbent_witness : processOne 2 1 exC8 0 = exC8 :=
  C8_tie_keeps_incumbent 2 1 exC8 0 1 rfl (by with_unfolding_all decide)
    (by with_unfolding_all decide)

/-- C1 amended: for every state (in particular every final state of the
loop), row `i` of the observed-utility columns is the proposing utility
formula evaluated against the same-index counterpart — applicant `i` against
reviewer `i` and reviewer `i` against applicant `i` (without bias) — not a
maximum over the opposite population. -/
theorem C1_obs_u_same_index (st : MatchState) (i : Nat) :
    A_obs_u_col st i = uA (st.A i) (st.B i) ∧
    B_obs_u_col st i = uB_nobias (st.A i) (st.B i) :=
  ⟨rfl, rfl⟩

/-- C1 counterexample: in the final state of a concrete 2-agent run,
applicant 0's `_A_obs_u` entry (its utility from same-index reviewer 0,
namely 0) is strictly below its utility from reviewer 1 (namely 10), so the
column is not the maximum over all reviewers of the applicant's utility
formula. -/
theorem C1_obs_u_not_max :
    A_obs_u_col (matchingLoop 2 (initLoop exC1A exC1B)).ms 0
      < uA ((matchingLoop 2 (initLoop exC1A exC1B)).ms.A 0)
           ((matchingLoop 2 (initLoop exC1A exC1B)).ms.B 1) := by
  with_unfolding_all decide

/-- C3 counterexample: with heterogeneous MRS columns the rank-1 proposal
target of unmatched applicant 0 is reviewer 1 — applicant 0 even matches
reviewer 1 when processed — although reviewer 0 gives applicant 0 strictly
higher utility under applicant 0's own MRS vector.  This is impossible if
the preference order were produced by sorting reviewers on the proposing
applicant's own derived utility: the network's utility column pairs
reviewer row `j` with applicant row `j`'s MRS values instead. -/
theorem C3_network_not_own_mrs :
    qth_best_id 2 1 exC3 = 1 ∧
    ((processOne 2 1 exC3 0).A 0).matchId = some 1 ∧
    uA (exC3.A 0) (exC3.B 1) < uA (exC3.A 0) (exC3.B 0) := by
  with_unfolding_all decide

/-- Inserting an element whose original position precedes every element of
an already-sorted tail (expressed by its id being larger, since the input to
the ascending kernel is the reversed network) keeps the list sorted
ascending with ties ordered by descending id. -/
theorem orderedInsert_asc_stable (a : NetEntry) :
    ∀ s : List NetEntry,
      s.Pairwise (fun x y => x.utility < y.utility ∨
        (x.utility = y.utility ∧ y.id < x.id)) →
      (∀ y ∈ s, y.id < a.id) →
      (List.orderedInsert leU a s).Pairwise (fun x y => x.utility < y.utility ∨
        (x.utility = y.utility ∧ y.id < x.id)) := by
  intro s
  induction s with
  | nil =>
      intro _ _
      simp
  | cons b s' ih =>
      intro hp hid
      obtain ⟨hp1, hp2⟩ := List.pairwise_cons.mp hp
      rw [List.orderedInsert]
      by_cases hab : leU a b
      · rw [if_pos hab]
        refine List.pairwise_cons.mpr ⟨?_, hp⟩
        intro y hy
        rcases List.mem_cons.mp hy with rfl | hy'
        · rcases lt_or_eq_of_le hab with hlt | heq
          · exact Or.inl hlt
          · exact Or.inr ⟨heq, hid y (List.mem_cons_self y s')⟩
        · rcases hp1 y hy' with hby | ⟨hby, _⟩
          · exact Or.inl (lt_of_le_of_lt hab hby)
          · rcases lt_or_eq_of_le (le_of_le_of_eq hab hby) with h | h
            · exact Or.inl h
            · exact Or.inr ⟨h, hid y (List.mem_cons_of_mem b hy')⟩
      · rw [if_neg hab]
        have hba : b.utility < a.utility := lt_of_not_le hab
        refine List.pairwise_cons.mpr ⟨?_, ?_⟩
        · intro y hy
          rcases (List.mem_orderedInsert leU).mp hy with rfl | hy'
          · exact Or.inl hba
          · exact hp1 y hy'
        · exact ih hp2 fun y hy => hid y (List.mem_cons_of_mem b hy)

/-- The stable ascending kernel applied to a list whose ids strictly
decrease left to right (the reversed network) sorts ascending by utility
with ties ordered by descending id. -/
theorem insertionSort_asc_stable :
    ∀ l : List NetEntry,
      l.Pairwise (fun x y => y.id < x.id) →
      (List.insertionSort leU l).Pairwise (fun x y => x.utility < y.utility ∨
        (x.utility = y.utility ∧ y.id < x.id)) := by
  intro l
  induction l with
  | nil =>
      intro _
      simp
  | cons a l' ih =>
      intro hp
      obtain ⟨h1, h2⟩ := List.pairwise_cons.mp hp
      rw [List.insertionSort]
      apply orderedInsert_asc_stable
      · exact ih h2
      · intro y hy
        exact h1 y ((List.perm_insertionSort leU l').mem_iff.mp hy)

/-- C3 amended: the sorted network is always a permutation of the network
rows ordered weakly descending by the network's utility column — which
row-aligns reviewer `j` with applicant `j`'s MRS, not the proposing
applicant's own.  The documented tie rule (exactly-equal utilities in
ascending reviewer id, i.e. original row order) is guaranteed only on
numpy's small-array insertion-sort path, populations of at most 16, where
pandas' reverse / stable-ascending-argsort / reverse pipeline restores the
original order among ties; the default quicksort (introsort) kernel used
above that size gives no tie-order guarantee. -/
theorem C3_sort_desc_stable (n : Nat) (st : MatchState) :
    List.Perm (sort_values_desc (network n st)) (network n st) ∧
    (sort_values_desc (network n st)).Pairwise
      (fun x y => y.utility ≤ x.utility) ∧
    (n ≤ 16 →
      (sort_values_desc (network n st)).Pairwise
        (fun x y => y.utility < x.utility ∨
          (y.utility = x.utility ∧ x.id < y.id))) := by
  have hids : (network n st).Pairwise (fun x y => x.id < y.id) := by
    unfold network
    rw [List.pairwise_map]
    exact List.pairwise_lt_range n
  have hrev : (network n st).reverse.Pairwise (fun x y => y.id < x.id) :=
    List.pairwise_reverse.mpr hids
  have hsorted := insertionSort_asc_stable (network n st).reverse hrev
  have hstable : (sort_values_desc (network n st)).Pairwise
      (fun x y => y.utility < x.utility ∨
        (y.utility = x.utility ∧ x.id < y.id)) := by
    unfold sort_values_desc
    rw [List.pairwise_reverse]
    exact hsorted
  refine ⟨sort_values_desc_perm (network n st), ?_, fun _ => hstable⟩
  apply hstable.imp
  intro a b hab
  rcases hab with h | ⟨h, _⟩
  · exact le_of_lt h
  · exact le_of_eq h

/-- Witness for C3 at a concrete 2-reviewer network with an exact utility
tie (within the insertion-sort regime). -/
theorem C3_sort_desc_stable_witness :
    List.Perm (sort_values_desc (network 2 exC3tie)) (network 2 exC3tie) ∧
    (sort_values_desc (network 2 exC3tie)).Pairwise
      (fun x y => y.utility ≤ x.utility) ∧
    (sort_values_desc (network 2 exC3tie)).Pairwise
      (fun x y => y.utility < x.utility ∨
        (y.utility = x.utility ∧ x.id < y.id)) :=
  ⟨(C3_sort_desc_stable 2 exC3tie).1, (C3_sort_desc_stable 2 exC3tie).2.1,
   (C3_sort_desc_stable 2 exC3tie).2.2 (by omega)⟩

/-- When the final matching is a bijection `σ` from reviewers to applicants,
row `i` of `B_dap_sorted` is exactly the reviewer holding applicant `i`
(the sort keys are the distinct values `some 0, ..., some (n-1)`). -/
theorem B_dap_sorted_get (n : Nat) (st : MatchState) (s : Nat → Nat)
    (hm : ∀ j, j < n → (st.B j).matchId = some (s j))
    (hinj : ∀ j1 j2, j1 < n → j2 < n → s j1 = s j2 → j1 = j2)
    (hlt : ∀ j, j < n → s j < n)
    (i : Nat) (hi : i < n) :
    ∃ r, r < n ∧ s r = i ∧ (B_dap_sorted n st).getD i dummyB = st.B r := by
  have hperm : List.Perm (B_dap_sorted n st) ((List.range n).map st.B) :=
    List.perm_insertionSort leM _
  have hlen : (B_dap_sorted n st).length = n := by
    rw [hperm.length_eq, List.length_map, List.length_range]
  -- the image of `s` on `range n` is `range n` (pigeonhole)
  have himg : Finset.image s (Finset.range n) = Finset.range n := by
    apply Finset.eq_of_subset_of_card_le
    · intro x hx
      rw [Finset.mem_image] at hx
      obtain ⟨j, hj, hjx⟩ := hx
      rw [Finset.mem_range] at hj
      rw [Finset.mem_range, ← hjx]
      exact hlt j hj
    · rw [Finset.card_image_of_injOn, Finset.card_range]
      intro j1 hj1 j2 hj2 h12
      rw [Finset.coe_range, Set.mem_Iio] at hj1 hj2
      exact hinj j1 j2 hj1 hj2 h12
  -- the key multiset is a permutation of `some 0, ..., some (n-1)`
  have hmap_perm : List.Perm ((List.range n).map s) (List.range n) := by
    apply List.perm_of_nodup_nodup_toFinset_eq
    · apply List.Nodup.map_on
      · intro x hx y hy hxy
        exact hinj x y (List.mem_range.mp hx) (List.mem_range.mp hy) hxy
      · exact List.nodup_range n
    · exact List.nodup_range n
    · ext x
      simp only [List.mem_toFinset, List.mem_map, List.mem_range]
      constructor
      · rintro ⟨j, hj, rfl⟩
        exact hlt j hj
      · intro hx
        have : x ∈ Finset.image s (Finset.range n) := by
          rw [himg, Finset.mem_range]
          exact hx
        rw [Finset.mem_image] at this
        obtain ⟨j, hj, hjx⟩ := this
        exact ⟨j, Finset.mem_range.mp hj, hjx⟩
  have hkeys_perm :
      List.Perm ((B_dap_sorted n st).map AgentB.matchId)
        ((List.range n).map some) := by
    have h1 : List.Perm ((B_dap_sorted n st).map AgentB.matchId)
        (((List.range n).map st.B).map AgentB.matchId) := hperm.map _
    rw [List.map_map] at h1
    have h2 : (List.range n).map (AgentB.matchId ∘ st.B)
        = (List.range n).map (fun j => some (s j)) := by
      apply List.map_congr_left
      intro j hj
      exact hm j (List.mem_range.mp hj)
    rw [h2] at h1
    have h3 : (List.range n).map (fun j => some (s j))
        = ((List.range n).map s).map some := by
      rw [List.map_map]
      rfl
    rw [h3] at h1
    exact h1.trans (hmap_perm.map some)
  have hkeys_sorted : ((B_dap_sorted n st).map AgentB.matchId).Pairwise optLE := by
    have := List.sorted_insertionSort leM ((List.range n).map st.B)
    exact this.map AgentB.matchId fun a b h => h
  have htarget_sorted : ((List.range n).map some).Pairwise optLE := by
    rw [List.pairwise_map]
    apply (List.pairwise_lt_range n).imp
    intro a b hab
    exact le_of_lt hab
  have hkeys_eq : (B_dap_sorted n st).map AgentB.matchId
      = (List.range n).map some :=
    List.eq_of_perm_of_sorted hkeys_perm hkeys_sorted htarget_sorted
  have hiL : i < (B_dap_sorted n st).length := by
    rw [hlen]
    exact hi
  have hgetK : ((B_dap_sorted n st).get ⟨i, hiL⟩).matchId = some i := by
    have h1 : ((B_dap_sorted n st).map AgentB.matchId).get
        ⟨i, by rw [List.length_map]; exact hiL⟩
        = ((B_dap_sorted n st).get ⟨i, hiL⟩).matchId :=
      List.get_map AgentB.matchId
    have h2 : ((List.range n).map some).get
        ⟨i, by rw [List.length_map, List.length_range]; exact hi⟩
        = some ((List.range n).get ⟨i, by rw [List.length_range]; exact hi⟩) :=
      List.get_map some
    rw [← h1]
    have h4 := List.get_range i (by rw [List.length_range]; exact hi)
    have h3 := List.get_of_eq hkeys_eq ⟨i, by rw [List.length_map]; exact hiL⟩
    rw [h3, h2, h4]
  have hmem : (B_dap_sorted n st).get ⟨i, hiL⟩ ∈ B_dap_sorted n st :=
    List.get_mem _ i hiL
  have hmem2 := hperm.mem_iff.mp hmem
  rw [List.mem_map] at hmem2
  obtain ⟨r, hr, hre⟩ := hmem2
  have hrn : r < n := List.mem_range.mp hr
  have hsr : s r = i := by
    have := hm r hrn
    rw [hre, hgetK] at this
    simpa using this.symm
  refine ⟨r, hrn, hsr, ?_⟩
  rw [List.getD_eq_get _ _ hiL, ← hre]

/-- C4 amended: in every final state of the loop whose matching is
complete (every reviewer matched — the condition the claim needs, since in
cap-hit incomplete final states the sort of `B` by `match` at line 1265 can
misalign rows, see the counterexample), for every applicant `i` there is a
reviewer `r` holding it such that: the applicant's dap utility (`_A_dap_u`)
equals the bias-free formula `uA`; row `i` of `_A_apparent_u` equals the
reviewer's bias-inclusive valuation `uB` of applicant `i`; and row `i` of
`_A_apparent_corrected_u` (apparent minus `bias_char * bias_mrs`) equals
exactly the reviewer's unbiased valuation `uB_nobias`. -/
theorem C4_bias_columns (n : Nat) (A0 : Nat → AgentA) (B0 : Nat → AgentB)
    (hA0 : ∀ a, (A0 a).matchId = none) (hB0 : ∀ b, (B0 b).matchId = none)
    (hall : ∀ j, j < n →
      (((matchingLoop n (initLoop A0 B0)).ms.B j).matchId).isSome = true)
    (i : Nat) (hi : i < n) :
    ∃ r, r < n ∧
      ((matchingLoop n (initLoop A0 B0)).ms.B r).matchId = some i ∧
      ((matchingLoop n (initLoop A0 B0)).ms.A i).matchId = some r ∧
      A_dap_u_col (matchingLoop n (initLoop A0 B0)).ms i
        = uA ((matchingLoop n (initLoop A0 B0)).ms.A i)
             ((matchingLoop n (initLoop A0 B0)).ms.B r) ∧
      A_apparent_u_col n (matchingLoop n (initLoop A0 B0)).ms i
        = uB ((matchingLoop n (initLoop A0 B0)).ms.A i)
             ((matchingLoop n (initLoop A0 B0)).ms.B r) ∧
      A_apparent_corrected_u_col n (matchingLoop n (initLoop A0 B0)).ms i
        = uB_nobias ((matchingLoop n (initLoop A0 B0)).ms.A i)
             ((matchingLoop n (initLoop A0 B0)).ms.B r) := by
  have hInv : EngineInv n (matchingLoop n (initLoop A0 B0)).ms :=
    loopFuel_inv n 1002 (initLoop A0 B0) (inv_initial A0 B0 n hA0 hB0)
  have hm : ∀ j, j < n → ((matchingLoop n (initLoop A0 B0)).ms.B j).matchId
      = some ((((matchingLoop n (initLoop A0 B0)).ms.B j).matchId).getD 0) := by
    intro j hj
    rcases ho : ((matchingLoop n (initLoop A0 B0)).ms.B j).matchId with _ | a
    · have h := hall j hj
      rw [ho] at h
      exact absurd h (by simp)
    · simp
  have hlt : ∀ j, j < n →
      (((matchingLoop n (initLoop A0 B0)).ms.B j).matchId).getD 0 < n :=
    fun j hj => (hInv.2 j hj _ (hm j hj)).1
  have hinj : ∀ j1 j2, j1 < n → j2 < n →
      (((matchingLoop n (initLoop A0 B0)).ms.B j1).matchId).getD 0
        = (((matchingLoop n (initLoop A0 B0)).ms.B j2).matchId).getD 0 →
      j1 = j2 := by
    intro j1 j2 h1 h2 he
    have e1 := (hInv.2 j1 h1 _ (hm j1 h1)).2.1
    have e2 := (hInv.2 j2 h2 _ (hm j2 h2)).2.1
    rw [he] at e1
    rw [e1] at e2
    simpa using e2
  obtain ⟨r, hrn, hsr, hrow⟩ := B_dap_sorted_get n (matchingLoop n (initLoop A0 B0)).ms
    (fun j => (((matchingLoop n (initLoop A0 B0)).ms.B j).matchId).getD 0)
    hm hinj hlt i hi
  have hBr : ((matchingLoop n (initLoop A0 B0)).ms.B r).matchId = some i := by
    rw [hm r hrn, hsr]
  obtain ⟨_, hAi, hBu⟩ := hInv.2 r hrn i hBr
  obtain ⟨_, _, hAu⟩ := hInv.1 i hi r hAi
  refine ⟨r, hrn, hBr, hAi, hAu, ?_, ?_⟩
  · unfold A_apparent_u_col
    rw [hrow]
    exact hBu
  · unfold A_apparent_corrected_u_col A_apparent_u_col
    rw [hrow, hBu]
    unfold uB uB_nobias
    ring

/-- Witness for C4 at a concrete size-1 biased market (`bias_char = 1`,
`bias_mrs = -25`): the run matches the pair, the dap utility is the
bias-free 2, the apparent value is the biased `1 - 25 = -24`, and the
corrected column recovers the unbiased 1. -/
theorem C4_bias_columns_witness :
    ∃ r, r < 1 ∧
      ((matchingLoop 1 (initLoop exC4A exC4B)).ms.B r).matchId = some 0 ∧
      ((matchingLoop 1 (initLoop exC4A exC4B)).ms.A 0).matchId = some r ∧
      A_dap_u_col (matchingLoop 1 (initLoop exC4A exC4B)).ms 0
        = uA ((matchingLoop 1 (initLoop exC4A exC4B)).ms.A 0)
             ((matchingLoop 1 (initLoop exC4A exC4B)).ms.B r) ∧
      A_apparent_u_col 1 (matchingLoop 1 (initLoop exC4A exC4B)).ms 0
        = uB ((matchingLoop 1 (initLoop exC4A exC4B)).ms.A 0)
             ((matchingLoop 1 (initLoop exC4A exC4B)).ms.B r) ∧
      A_apparent_corrected_u_col 1 (matchingLoop 1 (initLoop exC4A exC4B)).ms 0
        = uB_nobias ((matchingLoop 1 (initLoop exC4A exC4B)).ms.A 0)
             ((matchingLoop 1 (initLoop exC4A exC4B)).ms.B r) :=
  C4_bias_columns 1 exC4A exC4B (fun _ => rfl) (fun _ => rfl)
    (by with_unfolding_all decide) 0 (by omega)

/-- If any column the population builder reads is absent, the build stops at
the first absent column in read order with its `KeyError`. -/
theorem buildPopulations_missing (t : Table) (c : String) (hc : c ∈ readCols)
    (hm : t c = none) :
    ∃ cp, cp ∈ readCols ∧
      buildPopulations t = Except.error (PyErr.keyError cp) := by
  rcases h1 : t kA1 with _ | a1
  · exact ⟨kA1, by simp [readCols], by simp [buildPopulations, h1]⟩
  rcases h2 : t kA2 with _ | a2
  · exact ⟨kA2, by simp [readCols], by simp [buildPopulations, h1, h2]⟩
  rcases h3 : t kA3 with _ | a3
  · exact ⟨kA3, by simp [readCols], by simp [buildPopulations, h1, h2, h3]⟩
  rcases h4 : t kA4 with _ | a4
  · exact ⟨kA4, by simp [readCols], by simp [buildPopulations, h1, h2, h3, h4]⟩
  rcases h5 : t kAbias with _ | a5
  · exact ⟨kAbias, by simp [readCols],
      by simp [buildPopulations, h1, h2, h3, h4, h5]⟩
  rcases h6 : t kAm12 with _ | a6
  · exact ⟨kAm12, by simp [readCols],
      by simp [buildPopulations, h1, h2, h3, h4, h5, h6]⟩
  rcases h7 : t kAm13 with _ | a7
  · exact ⟨kAm13, by simp [readCols],
      by simp [buildPopulations, h1, h2, h3, h4, h5, h6, h7]⟩
  rcases h8 : t kAm14 with _ | a8
  · exact ⟨kAm14, by simp [readCols],
      by simp [buildPopulations, h1, h2, h3, h4, h5, h6, h7, h8]⟩
  rcases h9 : t kB1 with _ | b1
  · exact ⟨kB1, by simp [readCols],
      by simp [buildPopulations, h1, h2, h3, h4, h5, h6, h7, h8, h9]⟩
  rcases h10 : t kB2 with _ | b2
  · exact ⟨kB2, by simp [readCols],
      by simp [buildPopulations, h1, h2, h3, h4, h5, h6, h7, h8, h9, h10]⟩
  rcases h11 : t kB3 with _ | b3
  · exact ⟨kB3, by simp [readCols],
      by simp [buildPopulations, h1, h2, h3, h4, h5, h6, h7, h8, h9, h10, h11]⟩
  rcases h12 : t kB4 with _ | b4
  · exact ⟨kB4, by simp [readCols],
      by simp [buildPopulations, h1, h2, h3, h4, h5, h6, h7, h8, h9, h10, h11,
        h12]⟩
  rcases h13 : t kBm12 with _ | b5
  · exact ⟨kBm12, by simp [readCols],
      by simp [buildPopulations, h1, h2, h3, h4, h5, h6, h7, h8, h9, h10, h11,
        h12, h13]⟩
  rcases h14 : t kBm13 with _ | b6
  · exact ⟨kBm13, by simp [readCols],
      by simp [buildPopulations, h1, h2, h3, h4, h5, h6, h7, h8, h9, h10, h11,
        h12, h13, h14]⟩
  rcases h15 : t kBm14 with _ | b7
  · exact ⟨kBm14, by simp [readCols],
      by simp [buildPopulations, h1, h2, h3, h4, h5, h6, h7, h8, h9, h10, h11,
        h12, h13, h14, h15]⟩
  rcases h16 : t kBbias with _ | b8
  · exact ⟨kBbias, by simp [readCols],
      by simp [buildPopulations, h1, h2, h3, h4, h5, h6, h7, h8, h9, h10, h11,
        h12, h13, h14, h15, h16]⟩
  exfalso
  simp only [readCols, List.mem_cons, List.not_mem_nil, or_false] at hc
  rcases hc with rfl | rfl | rfl | rfl | rfl | rfl | rfl | rfl | rfl | rfl |
    rfl | rfl | rfl | rfl | rfl | rfl <;> simp_all

/-- C2 amended: whenever a column read by the population builder is absent
from the prepared table, the whole `rematcher` pipeline returns the
`KeyError` of a read column — before the matching loop, producing no
matching state at all (the error is the entire result). -/
theorem C2_missing_column_fails (Anum Bnum : Nat) (bias : Bool) (n : Nat)
    (t : Table) (c : String) (hc : c ∈ readCols)
    (hm : prepInput Anum Bnum bias t c = none) :
    ∃ cp, cp ∈ readCols ∧
      rematcher Anum Bnum bias n t = Except.error (PyErr.keyError cp) := by
  obtain ⟨cp, hcp, he⟩ :=
    buildPopulations_missing (prepInput Anum Bnum bias t) c hc hm
  exact ⟨cp, hcp, by simp [rematcher, he]⟩

/-- Witness for C2 at the concrete table that lacks `A_char_1`. -/
theorem C2_missing_column_fails_witness :
    ∃ cp, cp ∈ readCols ∧
      rematcher 4 4 false 2 tMissing = Except.error (PyErr.keyError cp) :=
  C2_missing_column_fails 4 4 false 2 tMissing kA1 (by simp [readCols])
    (by with_unfolding_all rfl)

/-- C2 counterexample: on the concrete table lacking `A_char_1` the pipeline
fails with the pandas `KeyError` for that column, which is not a
`ConfigurationError` — the repository defines no such exception class, so
the claimed error kind can never be raised. -/
theorem C2_keyError_not_configurationError :
    rematcher 4 4 false 2 tMissing = Except.error (PyErr.keyError kA1) ∧
    PyErr.keyError kA1 ≠ PyErr.configurationError := by
  constructor
  · with_unfolding_all rfl
  · intro h
    exact PyErr.noConfusion h

/-- Configuring both sides for 2 characteristics zero-fills exactly the
columns that `zeroFill22` assigns, in the same order. -/
theorem prepInput_two_eq (bias : Bool) (t : Table) :
    prepInput 2 2 bias t = prepInput 4 4 bias (zeroFill22 t) := by
  unfold prepInput zeroFill22
  norm_num

/-- C9: a run configured with 2 characteristics per side is identical — as
a whole `RunOutput`: final populations, iteration count and every derived
column — to a run configured with 4 characteristics on the same table with
characteristics 3 and 4 and the corresponding MRS columns zero-filled. -/
theorem C9_two_equals_four_zero_filled (bias : Bool) (n : Nat) (t : Table) :
    rematcher 2 2 bias n t = rematcher 4 4 bias n (zeroFill22 t) := by
  unfold rematcher
  rw [prepInput_two_eq]

/-- The network frame only reads fields the loop never writes, so it is
unchanged across any state evolution that preserves them. -/
theorem network_congr (n : Nat) {s sp : MatchState} (h : sameStatics s sp) :
    network n sp = network n s := by
  unfold network
  apply List.map_congr_left
  intro j _
  have hA := h.1 j
  have hB := h.2 j
  simp only [staticsA, Prod.mk.injEq] at hA
  simp only [staticsB, Prod.mk.injEq] at hB
  obtain ⟨e1, e2, e3, e4, e5, e6, e7, e8⟩ := hA
  obtain ⟨f1, f2, f3, f4, f5, f6, f7, f8⟩ := hB
  rw [e6, e7, e8, f1, f2, f3, f4]

/-- The proposal target is the same throughout one applicant pass: it is
computed from characteristics and MRS weights only. -/
theorem qth_best_congr (n q : Nat) {s sp : MatchState} (h : sameStatics s sp) :
    qth_best_id n q sp = qth_best_id n q s := by
  unfold qth_best_id
  rw [network_congr n h]

/-- A single applicant step can newly match at most the current proposal
target on the reviewer side. -/
theorem processOne_matched_subset (n q : Nat) (st : MatchState) (i b : Nat)
    (h : (((processOne n q st i).B b).matchId).isSome = true) :
    ((st.B b).matchId).isSome = true ∨ b = qth_best_id n q st := by
  rcases processOne_spec n q st i with heq | ⟨_, _, heq⟩ | ⟨j, _, _, _, heq⟩
  · rw [heq] at h
    exact Or.inl h
  · rw [heq] at h
    by_cases hbq : b = qth_best_id n q st
    · exact Or.inr hbq
    · rw [formMatch_B_apply, if_neg hbq] at h
      exact Or.inl h
  · rw [heq] at h
    by_cases hbq : b = qth_best_id n q st
    · exact Or.inr hbq
    · rw [breakupMatch_B_apply, if_neg hbq] at h
      exact Or.inl h

/-- One full applicant pass can newly match at most one reviewer: the rank-q
target, which is shared by all applicants and fixed during the pass. -/
theorem foldl_matched_subset (n q : Nat) (l : List Nat) (st : MatchState)
    (b : Nat)
    (h : (((l.foldl (processOne n q) st).B b).matchId).isSome = true) :
    ((st.B b).matchId).isSome = true ∨ b = qth_best_id n q st := by
  induction l generalizing st with
  | nil => exact Or.inl h
  | cons x xs ih =>
      rcases ih (processOne n q st x) h with h1 | h1
      · exact processOne_matched_subset n q st x b h1
      · right
        rw [h1]
        exact qth_best_congr n q (processOne_sameStatics n q st x)

/-- Each loop iteration raises the matched-reviewer count by at most one. -/
theorem iterStep_matchedCount (n : Nat) (st : LoopState) :
    matchedCount n (iterStep n st).ms ≤ matchedCount n st.ms + 1 := by
  unfold matchedCount
  have hsub : ((Finset.range n).filter
        fun b => (((iterStep n st).ms.B b).matchId).isSome = true)
      ⊆ ((Finset.range n).filter fun b => ((st.ms.B b).matchId).isSome = true)
        ∪ {qth_best_id n st.q st.ms} := by
    intro b hb
    rw [Finset.mem_filter] at hb
    rcases foldl_matched_subset n st.q (List.range n) st.ms b hb.2 with h1 | h1
    · exact Finset.mem_union_left _ (Finset.mem_filter.mpr ⟨hb.1, h1⟩)
    · refine Finset.mem_union_right _ ?_
      rw [Finset.mem_singleton]
      exact h1
  calc ((Finset.range n).filter
        fun b => (((iterStep n st).ms.B b).matchId).isSome = true).card
      ≤ (((Finset.range n).filter
            fun b => ((st.ms.B b).matchId).isSome = true)
          ∪ {qth_best_id n st.q st.ms}).card := Finset.card_le_card hsub
    _ ≤ ((Finset.range n).filter
            fun b => ((st.ms.B b).matchId).isSome = true).card
          + ({qth_best_id n st.q st.ms} : Finset Nat).card :=
        Finset.card_union_le _ _
    _ = ((Finset.range n).filter
            fun b => ((st.ms.B b).matchId).isSome = true).card + 1 := by
        rw [Finset.card_singleton]

/-- The iteration counter never decreases along the loop. -/
theorem loopFuel_iterat_ge (n : Nat) :
    ∀ (k : Nat) (st : LoopState), st.iterat ≤ (loopFuel n k st).iterat := by
  intro k
  induction k with
  | zero =>
      intro st
      exact le_refl _
  | succ m ih =>
      intro st
      rw [loopFuel]
      by_cases hm : st.all_matched = true
      · rw [if_pos hm]
      · rw [if_neg hm]
        calc st.iterat ≤ st.iterat + 1 := Nat.le_succ _
          _ = (iterStep n st).iterat := (iterStep_iterat n st).symm
          _ ≤ _ := ih (iterStep n st)

/-- Across the loop, the matched-reviewer count grows by at most the number
of iterations executed. -/
theorem loopFuel_matchedCount (n : Nat) :
    ∀ (k : Nat) (st : LoopState),
      matchedCount n (loopFuel n k st).ms
        ≤ matchedCount n st.ms + ((loopFuel n k st).iterat - st.iterat) := by
  intro k
  induction k with
  | zero =>
      intro st
      show matchedCount n st.ms ≤ matchedCount n st.ms + (st.iterat - st.iterat)
      omega
  | succ m ih =>
      intro st
      rw [loopFuel]
      by_cases hm : st.all_matched = true
      · rw [if_pos hm]
        omega
      · rw [if_neg hm]
        have h1 := ih (iterStep n st)
        have h2 := iterStep_matchedCount n st
        have h3 := loopFuel_iterat_ge n m (iterStep n st)
        have h4 : (iterStep n st).iterat = st.iterat + 1 := iterStep_iterat n st
        omega

/-- Incomplete final states are forced, not exotic: the body runs at most
1001 times and each run matches at most one new reviewer, so any market of
1002 or more leaves some reviewer unmatched at the cap — the cap-hit
outcome the spec's error-handling section describes. -/
theorem cap_leaves_unmatched_reviewer (n : Nat) (st : LoopState)
    (h0 : st.iterat = 0) (hm0 : matchedCount n st.ms = 0) (hn : 1002 ≤ n) :
    ∃ b, b < n ∧ ((matchingLoop n st).ms.B b).matchId = none := by
  by_contra hcon
  push_neg at hcon
  have hall : ((Finset.range n).filter
      fun b => (((matchingLoop n st).ms.B b).matchId).isSome = true)
      = Finset.range n := by
    apply Finset.filter_true_of_mem
    intro b hb
    have hne := hcon b (Finset.mem_range.mp hb)
    rcases ho : ((matchingLoop n st).ms.B b).matchId with _ | a
    · exact absurd ho hne
    · rfl
  have hcard : matchedCount n (matchingLoop n st).ms = n := by
    unfold matchedCount
    rw [hall, Finset.card_range]
  have hle := loopFuel_matchedCount n 1002 st
  have hit := loopFuel_iterat_le n 1002 st (by omega)
  unfold matchingLoop at hcard
  omega

/-- C4 counterexample: a concrete incomplete final-shaped state (it
satisfies the loop's symmetry/consistency invariant, holds the matched pair
applicant 1 with reviewer 0, and leaves applicant 0 and reviewer 1
unmatched — the shape forced at the iteration cap, see
`cap_leaves_unmatched_reviewer`).  Row 1 of `B_dap_sorted` is the unmatched
reviewer, so for the real matched pair the `_A_apparent_u` entry is not the
reviewer's bias-inclusive valuation and the `_A_apparent_corrected_u` entry
(here 25) differs from the unbiased valuation (here 1): the claimed
identities fail without the completeness condition. -/
theorem C4_incomplete_misaligns :
    EngineInv 2 exC4bad ∧
    (exC4bad.A 1).matchId = some 0 ∧
    (exC4bad.B 0).matchId = some 1 ∧
    (exC4bad.A 0).matchId = none ∧
    (exC4bad.B 1).matchId = none ∧
    A_apparent_u_col 2 exC4bad 1 ≠ uB (exC4bad.A 1) (exC4bad.B 0) ∧
    A_apparent_corrected_u_col 2 exC4bad 1
      ≠ uB_nobias (exC4bad.A 1) (exC4bad.B 0) := by
  refine ⟨⟨?_, ?_⟩, rfl, rfl, rfl, rfl, ?_, ?_⟩
  · intro a ha b hab
    interval_cases a
    · rw [show (exC4bad.A 0).matchId = none from rfl] at hab
      exact Option.noConfusion hab
    · have hb : b = 0 := by
        rw [show (exC4bad.A 1).matchId = some 0 from rfl] at hab
        simpa using hab.symm
      subst hb
      refine ⟨by omega, rfl, ?_⟩
      with_unfolding_all decide
  · intro b hb a hba
    interval_cases b
    · have ha : a = 1 := by
        rw [show (exC4bad.B 0).matchId = some 1 from rfl] at hba
        simpa using hba.symm
      subst ha
      refine ⟨by omega, rfl, ?_⟩
      with_unfolding_all decide
    · rw [show (exC4bad.B 1).matchId = none from rfl] at hba
      exact Option.noConfusion hba
  · with_unfolding_all decide
  · with_unfolding_all decide
